import Mathlib

set_option maxHeartbeats 1000000

/- Shallow embedding of src/ble_cube.rs: an in-memory multi-indexed store for
   BLE observation records.

   Modelling conventions:
   * `i8` and `i64` values are `Int`; where the source's arithmetic can
     overflow, the wrap-around of release-mode Rust is made explicit
     (`i8wrap`).
   * the 6-byte MAC address is modelled by its big-endian numeric value
     (`Nat`); lexicographic order on equal-length byte strings coincides
     with numeric order of that value.
   * `f64` coordinates are modelled as `ℚ`; the transcendental haversine
     distance is abstracted as an explicit function parameter `hdist`, while
     the envelope arithmetic (division, subtraction, addition) is exact.
   * `HashMap` is an association list in key-first-insertion order (its
     iteration order is unspecified in the source and never observable
     through the modelled queries); `BTreeMap` is an association list kept
     sorted by key; `BTreeMap::range` panics on an inverted range, which is
     modelled by `Option` (`none` = fault).
   * `RTree` is a list of entries in insertion order; its iteration order is
     likewise unspecified in the source and only the set of results matters
     to the properties below. -/

/-- The observation record (source: `struct BleObservation`). -/
structure BleObservation where
  rssi : Int
  mac : Nat
  timestamp : Int
  lat : ℚ
  lon : ℚ
deriving DecidableEq

/-- An R-tree entry (source: `struct GeoPoint`). -/
structure GeoPoint where
  coords : ℚ × ℚ
  record_id : Nat
deriving DecidableEq

/-- Map lookup (`HashMap::get` / `BTreeMap::get`) on an association list. -/
def mapGet {κ : Type} [DecidableEq κ] (k : κ) (m : List (κ × List Nat)) :
    Option (List Nat) :=
  (m.find? (fun p => p.1 == k)).map (fun p => p.2)

/-- `HashMap::entry(k).or_insert_with(Vec::new).push(id)` on an association
    list: append `id` to the key's bucket, adding an absent key at the end. -/
def hmapPush {κ : Type} [DecidableEq κ] (k : κ) (id : Nat) :
    List (κ × List Nat) → List (κ × List Nat)
  | [] => [(k, [id])]
  | (k', b) :: rest =>
    if k' = k then (k', b ++ [id]) :: rest else (k', b) :: hmapPush k id rest

/-- `BTreeMap::entry(k).or_insert_with(Vec::new).push(id)` on a sorted
    association list: append `id` to the key's bucket, inserting an absent
    key at its sorted position. -/
def btreePush (k : Int) (id : Nat) :
    List (Int × List Nat) → List (Int × List Nat)
  | [] => [(k, [id])]
  | (k', b) :: rest =>
    if k < k' then (k, [id]) :: (k', b) :: rest
    else if k' = k then (k', b ++ [id]) :: rest
    else (k', b) :: btreePush k id rest

/-- `BTreeMap::range(lo..=hi)` flattened over the buckets (`flat_map`), in
    ascending key order.  `range` panics when the range is inverted
    (`lo > hi`); the fault is modelled by `none`. -/
def btreeRange (lo hi : Int) (m : List (Int × List Nat)) :
    Option (List Nat) :=
  if lo ≤ hi then
    some ((m.filter (fun p => decide (lo ≤ p.1) && decide (p.1 ≤ hi))).flatMap
      (fun p => p.2))
  else none

/-- Wrap-around of Rust release-mode `i8` addition overflow. -/
def i8wrap (x : Int) : Int := (x + 128) % 256 - 128

/-- `AABB::from_corners` containment test: the two corners are normalised
    per dimension (componentwise min/max), then containment is inclusive. -/
def aabbContains (c1 c2 p : ℚ × ℚ) : Bool :=
  decide (min c1.1 c2.1 ≤ p.1) && decide (p.1 ≤ max c1.1 c2.1) &&
  decide (min c1.2 c2.2 ≤ p.2) && decide (p.2 ≤ max c1.2 c2.2)

/-- One step of the `point_in_polygon` ray-casting loop: edge between the
    current vertex `pv` and the previous vertex `pw`, toggling the `inside`
    flag when the horizontal ray crosses the edge. -/
def pipStep (lat lon : ℚ) (inside : Bool) (pp : (ℚ × ℚ) × (ℚ × ℚ)) : Bool :=
  let pv := pp.1
  let pw := pp.2
  if ((decide (pv.2 > lon) != decide (pw.2 > lon)) &&
      decide (lat < (pw.1 - pv.1) * (lon - pv.2) / (pw.2 - pv.2) + pv.1))
  then !inside else inside

/-- `point_in_polygon`: ray casting over all edges; vertex `i` is paired
    with vertex `j = i - 1` (`j = n - 1` for `i = 0`).  The source only
    reaches this with at least 3 vertices. -/
def point_in_polygon (lat lon : ℚ) (polygon : List (ℚ × ℚ)) : Bool :=
  match polygon.getLast? with
  | none => false
  | some plast =>
    (polygon.zip (plast :: polygon.dropLast)).foldl (pipStep lat lon) false

/-- `f64::MAX` as an exact rational (the fold seed of the polygon
    bounding box; `f64::MIN` is its negation). -/
def f64Max : ℚ := (2 ^ 53 - 1) * 2 ^ 971

/-- The store (source: `struct BleCube`). -/
structure BleCube where
  records : List BleObservation
  mac_index : List (Nat × List Nat)
  rssi_index : List (Int × List Nat)
  time_index : List (Int × List Nat)
  geo_index : List GeoPoint

namespace BleCube

/-- `BleCube::new`. -/
def new : BleCube := ⟨[], [], [], [], []⟩

/-- `BleCube::insert`: append the record, thread the new id into all four
    indices, return the id. -/
def insert (c : BleCube) (obs : BleObservation) : BleCube × Nat :=
  let record_id := c.records.length
  (⟨c.records ++ [obs],
    hmapPush obs.mac record_id c.mac_index,
    btreePush obs.rssi record_id c.rssi_index,
    btreePush obs.timestamp record_id c.time_index,
    c.geo_index ++ [⟨(obs.lat, obs.lon), record_id⟩]⟩, record_id)

/-- A cube built by inserting a list of observations into `new`. -/
def build (l : List BleObservation) : BleCube :=
  l.foldl (fun c obs => (c.insert obs).1) new

/-- The ids returned by the successive `insert` calls of `build`. -/
def buildIds (l : List BleObservation) : List Nat :=
  (l.foldl (fun p obs => ((p.1.insert obs).1, p.2 ++ [(p.1.insert obs).2]))
    (new, ([] : List Nat))).2

/-- `BleCube::get`. -/
def get (c : BleCube) (record_id : Nat) : Option BleObservation :=
  c.records[record_id]?

/-- `BleCube::len`. -/
def len (c : BleCube) : Nat := c.records.length

/-- `ids.iter().filter_map(|&id| self.records.get(id))`. -/
def resolve (c : BleCube) (ids : List Nat) : List BleObservation :=
  ids.filterMap (fun id => c.records[id]?)

/-- `BleCube::query_mac`. -/
def query_mac (c : BleCube) (mac : Nat) : List BleObservation :=
  ((mapGet mac c.mac_index).map (fun ids => c.resolve ids)).getD []

/-- `BleCube::get_all_macs`: collect the keys, then sort. -/
def get_all_macs (c : BleCube) : List Nat :=
  List.insertionSort (· ≤ ·) (c.mac_index.map (fun p => p.1))

/-- `BleCube::query_rssi_range` (inclusive `[lo, hi]`). -/
def query_rssi_range (c : BleCube) (lo hi : Int) :
    Option (List BleObservation) :=
  (btreeRange lo hi c.rssi_index).map (fun ids => c.resolve ids)

/-- `BleCube::query_rssi_gt`: the source computes `threshold + 1` in `i8`
    and scans `(threshold + 1)..=i8::MAX`; the addition wraps at
    `i8::MAX`. -/
def query_rssi_gt (c : BleCube) (threshold : Int) :
    Option (List BleObservation) :=
  (btreeRange (i8wrap (threshold + 1)) 127 c.rssi_index).map
    (fun ids => c.resolve ids)

/-- `BleCube::query_rssi_gte`: scans `threshold..=i8::MAX`. -/
def query_rssi_gte (c : BleCube) (threshold : Int) :
    Option (List BleObservation) :=
  (btreeRange threshold 127 c.rssi_index).map (fun ids => c.resolve ids)

/-- `BleCube::query_time_range` (inclusive `[start, e]`). -/
def query_time_range (c : BleCube) (start e : Int) :
    Option (List BleObservation) :=
  (btreeRange start e c.time_index).map (fun ids => c.resolve ids)

/-- Candidate ids of `BleCube::query_geo_radius`: envelope pre-filter
    (square of half-side `radius_m / 111000` degrees around the center),
    then the distance test.  The transcendental `haversine_distance` on
    `f64` is abstracted as the parameter `hdist`. -/
def query_geo_radius_ids (hdist : ℚ → ℚ → ℚ → ℚ → ℚ) (c : BleCube)
    (lat lon radius_m : ℚ) : List Nat :=
  let radius_deg := radius_m / 111000
  let lower := (lat - radius_deg, lon - radius_deg)
  let upper := (lat + radius_deg, lon + radius_deg)
  ((c.geo_index.filter (fun pt => aabbContains lower upper pt.coords)).filter
    (fun pt => decide (hdist lat lon pt.coords.1 pt.coords.2 ≤ radius_m))).map
    (fun pt => pt.record_id)

/-- `BleCube::query_geo_radius`. -/
def query_geo_radius (hdist : ℚ → ℚ → ℚ → ℚ → ℚ) (c : BleCube)
    (lat lon radius_m : ℚ) : List BleObservation :=
  c.resolve (query_geo_radius_ids hdist c lat lon radius_m)

/-- `BleCube::query_geo_polygon`: fewer than 3 vertices returns empty;
    otherwise a bounding-box pre-filter (folded from seed
    `(f64::MAX, f64::MIN, f64::MAX, f64::MIN)`) and then ray casting. -/
def query_geo_polygon (c : BleCube) (polygon : List (ℚ × ℚ)) :
    List BleObservation :=
  if polygon.length < 3 then []
  else
    let bb := polygon.foldl
      (fun acc v =>
        (min acc.1 v.1, max acc.2.1 v.1, min acc.2.2.1 v.2, max acc.2.2.2 v.2))
      (f64Max, -f64Max, f64Max, -f64Max)
    c.resolve
      (((c.geo_index.filter (fun pt =>
          aabbContains (bb.1, bb.2.2.1) (bb.2.1, bb.2.2.2) pt.coords)).filter
        (fun pt => point_in_polygon pt.coords.1 pt.coords.2 polygon)).map
        (fun pt => pt.record_id))

/-- `BleCube::query_multi`.  The source recovers each geo result's id by
    pointer identity into `records`; that position equals the geo entry's
    `record_id` whenever the id is in bounds, and an out-of-bounds id
    produces no geo result at all, hence the bounds filter. -/
def query_multi (hdist : ℚ → ℚ → ℚ → ℚ → ℚ) (c : BleCube)
    (mac : Option Nat) (rssi_range : Option (Int × Int))
    (time_range : Option (Int × Int)) (geo_center : Option (ℚ × ℚ × ℚ)) :
    Option (List BleObservation) := do
  let base : List Nat :=
    match mac with
    | some mac_addr => (mapGet mac_addr c.mac_index).getD []
    | none => List.range c.records.length
  let afterRssi : List Nat ←
    match rssi_range with
    | some (min_rssi, max_rssi) => do
      let rssi_ids ← btreeRange min_rssi max_rssi c.rssi_index
      pure (base.filter (fun id => rssi_ids.contains id))
    | none => pure base
  let afterTime : List Nat ←
    match time_range with
    | some (startT, endT) => do
      let time_ids ← btreeRange startT endT c.time_index
      pure (afterRssi.filter (fun id => time_ids.contains id))
    | none => pure afterRssi
  let result_ids : List Nat :=
    match geo_center with
    | some (lat, lon, radius) =>
      let geo_ids := (query_geo_radius_ids hdist c lat lon radius).filter
        (fun id => decide (id < c.records.length))
      afterTime.filter (fun id => geo_ids.contains id)
    | none => afterTime
  pure (c.resolve result_ids)

/-- The filtering tail of `query_multi`: the successive narrowing of a
    candidate set `B` by the three optional dimension filters, followed by
    resolution (the code of `query_multi` after the base-set selection). -/
def multiTail (hdist : ℚ → ℚ → ℚ → ℚ → ℚ) (c : BleCube) (B : List Nat)
    (rssi_range : Option (Int × Int)) (time_range : Option (Int × Int))
    (geo_center : Option (ℚ × ℚ × ℚ)) : Option (List BleObservation) := do
  let afterRssi : List Nat ←
    match rssi_range with
    | some (min_rssi, max_rssi) => do
      let rssi_ids ← btreeRange min_rssi max_rssi c.rssi_index
      pure (B.filter (fun id => rssi_ids.contains id))
    | none => pure B
  let afterTime : List Nat ←
    match time_range with
    | some (startT, endT) => do
      let time_ids ← btreeRange startT endT c.time_index
      pure (afterRssi.filter (fun id => time_ids.contains id))
    | none => pure afterRssi
  let result_ids : List Nat :=
    match geo_center with
    | some (lat, lon, radius) =>
      let geo_ids := (query_geo_radius_ids hdist c lat lon radius).filter
        (fun id => decide (id < c.records.length))
      afterTime.filter (fun id => geo_ids.contains id)
    | none => afterTime
  pure (c.resolve result_ids)

/-- The base-set selection of `query_multi`: the MAC bucket if a MAC filter
    is given, otherwise the full identifier range. -/
def baseOf (c : BleCube) (mac : Option Nat) : List Nat :=
  match mac with
  | some mac_addr => (mapGet mac_addr c.mac_index).getD []
  | none => List.range c.records.length

end BleCube

/- ===== Characterizations used to state the properties ===== -/

/-- `some` of a bucket when it is non-empty, `none` otherwise: the shape of a
    map lookup for a key whose bucket would be `L`. -/
def optList (L : List Nat) : Option (List Nat) :=
  if L = [] then none else some L

/-- The identifiers of the records whose `f`-field equals `k`, in insertion
    order. -/
def idsOfKey {κ : Type} [DecidableEq κ] (f : BleObservation → κ)
    (records : List BleObservation) (k : κ) : List Nat :=
  (List.range records.length).filter (fun i => decide (records[i]?.map f = some k))

/-- The distinct `f`-values of the records that lie in `[lo, hi]`, in
    ascending order. -/
def canonKeysIn (f : BleObservation → Int) (l : List BleObservation)
    (lo hi : Int) : List Int :=
  List.insertionSort (· ≤ ·)
    (((l.map f).dedup).filter (fun k => decide (lo ≤ k) && decide (k ≤ hi)))

/-- Records with `f`-value in `[lo, hi]`, grouped by ascending `f`-value and
    in insertion order inside each group. -/
def groupedInRange (f : BleObservation → Int) (l : List BleObservation)
    (lo hi : Int) : List BleObservation :=
  (canonKeysIn f l lo hi).flatMap (fun k => l.filter (fun o => decide (f o = k)))

/-- The starting candidate set of `query_multi`: the MAC bucket if a MAC
    filter is given, otherwise the full identifier range. -/
def baseIds (l : List BleObservation) (mac : Option Nat) : List Nat :=
  match mac with
  | some a => idsOfKey (fun o => o.mac) l a
  | none => List.range l.length

/-- Membership of a value in an optional inclusive range (`true` when the
    filter is omitted). -/
def inRangeOpt (v : Int) (r : Option (Int × Int)) : Bool :=
  match r with
  | some (lo, hi) => decide (lo ≤ v) && decide (v ≤ hi)
  | none => true

/-- The spatial radius test of `query_geo_radius` applied to a record's own
    coordinates (`true` when the filter is omitted). -/
def geoPass (hdist : ℚ → ℚ → ℚ → ℚ → ℚ) (g : Option (ℚ × ℚ × ℚ))
    (o : BleObservation) : Bool :=
  match g with
  | some (lat, lon, radius) =>
    let radius_deg := radius / 111000
    aabbContains (lat - radius_deg, lon - radius_deg)
      (lat + radius_deg, lon + radius_deg) (o.lat, o.lon) &&
      decide (hdist lat lon o.lat o.lon ≤ radius)
  | none => true

/-- The conjunction of the three optional dimension filters of `query_multi`
    at identifier `id` of store `l`. -/
def passes (hdist : ℚ → ℚ → ℚ → ℚ → ℚ) (l : List BleObservation)
    (rssiR timeR : Option (Int × Int)) (geoR : Option (ℚ × ℚ × ℚ))
    (id : Nat) : Bool :=
  match l[id]? with
  | some o => inRangeOpt o.rssi rssiR && inRangeOpt o.timestamp timeR &&
      geoPass hdist geoR o
  | none => false

/-- The spatial entries that a correctly built store holds: one entry per
    record, carrying its coordinates and identifier. -/
def geoOf (records : List BleObservation) : List GeoPoint :=
  (List.range records.length).filterMap
    (fun i => (records[i]?).map (fun obs => GeoPoint.mk (obs.lat, obs.lon) i))

/-- All identifiers of all buckets of a flat index, bucket by bucket. -/
def flatIds {κ : Type} (idx : List (κ × List Nat)) : List Nat :=
  idx.flatMap (fun p => p.2)

/-- An association-list index is exact for field `f` of `records`: looking
    up any key yields precisely the matching identifiers in insertion order,
    and no key occurs twice. -/
structure IdxOk {κ : Type} [DecidableEq κ] (f : BleObservation → κ)
    (records : List BleObservation) (idx : List (κ × List Nat)) : Prop where
  getOk : ∀ k, mapGet k idx = optList (idsOfKey f records k)
  keysNodup : (idx.map (fun p => p.1)).Nodup

/-- Full structural consistency of a store: every flat index is exact for
    its field, the ordered indices are sorted by key, and the spatial index
    holds exactly one entry per record. -/
structure CubeOk (c : BleCube) : Prop where
  macOk : IdxOk (fun o => o.mac) c.records c.mac_index
  rssiOk : IdxOk (fun o => o.rssi) c.records c.rssi_index
  rssiSorted : List.Sorted (· < ·) (c.rssi_index.map (fun p => p.1))
  timeOk : IdxOk (fun o => o.timestamp) c.records c.time_index
  timeSorted : List.Sorted (· < ·) (c.time_index.map (fun p => p.1))
  geoEq : c.geo_index = geoOf c.records

/-- The invariant of the claim: every identifier present in the store occurs
    exactly once across the buckets of each flat index, occurs in the bucket
    keyed by its record's own field value, and has exactly one spatial
    entry. -/
def StoreInv (c : BleCube) : Prop :=
  ∀ id obs, c.records[id]? = some obs →
    ((flatIds c.mac_index).count id = 1 ∧
      id ∈ (mapGet obs.mac c.mac_index).getD []) ∧
    ((flatIds c.rssi_index).count id = 1 ∧
      id ∈ (mapGet obs.rssi c.rssi_index).getD []) ∧
    ((flatIds c.time_index).count id = 1 ∧
      id ∈ (mapGet obs.timestamp c.time_index).getD []) ∧
    (c.geo_index.filter (fun pt => pt.record_id == id)).length = 1

/-- Every identifier stored in any index refers into the record store. -/
def IdxBounded (c : BleCube) : Prop :=
  (∀ id ∈ flatIds c.mac_index, id < c.records.length) ∧
  (∀ id ∈ flatIds c.rssi_index, id < c.records.length) ∧
  (∀ id ∈ flatIds c.time_index, id < c.records.length) ∧
  (∀ pt ∈ c.geo_index, pt.record_id < c.records.length)

/-- An observation with a given RSSI and neutral remaining fields (the shape
    used by the source's own tests). -/
def obsR (r : Int) : BleObservation := ⟨r, 0, 0, 0, 0⟩

/- ===== Basic facts about building a store ===== -/

theorem insert_fst_records (c : BleCube) (obs : BleObservation) :
    ((c.insert obs).1).records = c.records ++ [obs] := rfl

theorem foldl_insert_records (l : List BleObservation) :
    ∀ c : BleCube,
      (l.foldl (fun c obs => (c.insert obs).1) c).records = c.records ++ l := by
  induction l with
  | nil => intro c; simp
  | cons a t ih =>
    intro c
    rw [List.foldl_cons, ih, insert_fst_records]
    simp

theorem build_records (l : List BleObservation) :
    (BleCube.build l).records = l := by
  rw [BleCube.build, foldl_insert_records]
  rfl

theorem foldl_insert_snd (l : List BleObservation) :
    ∀ (c : BleCube) (acc : List Nat),
      (l.foldl (fun p obs => ((p.1.insert obs).1, p.2 ++ [(p.1.insert obs).2]))
        (c, acc)).2 = acc ++ List.range' c.records.length l.length := by
  induction l with
  | nil => intro c acc; simp
  | cons a t ih =>
    intro c acc
    rw [List.foldl_cons, ih]
    simp [BleCube.insert, List.range'_succ]

/-- C3: starting from the empty cube, the identifiers returned by the
    successive `insert` calls are exactly `0, 1, 2, …` in insertion order,
    and `get` at each returned identifier yields exactly the record that was
    passed to `insert` (stated for every index: in bounds it returns the
    inserted record, out of bounds it signals absence). -/
theorem c3_insert_ids_and_get (l : List BleObservation) :
    BleCube.buildIds l = List.range l.length ∧
      ∀ i, (BleCube.build l).get i = l[i]? := by
  constructor
  · unfold BleCube.buildIds
    rw [foldl_insert_snd, List.range_eq_range']
    rfl
  · intro i
    rw [BleCube.get, build_records]

/-- C1 (divergence witness): at threshold `i8::MAX = 127`, `query_rssi_gt`
    does not return the empty sequence: the source's `threshold + 1`
    computation overflows `i8` (release mode wraps it to `-128`), so the scan
    covers the whole key range and even returns the record whose RSSI equals
    the threshold itself. -/
theorem c1_rssi_gt_max_wraps :
    BleCube.query_rssi_gt (BleCube.build [obsR 127]) 127 = some [obsR 127] ∧
      some [obsR 127] ≠ some ([] : List BleObservation) := by
  constructor
  · decide
  · decide

/-- C9: a polygon query with fewer than 3 vertices returns the empty
    sequence, whatever the store contents and the vertex coordinates. -/
theorem c9_polygon_short (c : BleCube) (polygon : List (ℚ × ℚ))
    (h : polygon.length < 3) : c.query_geo_polygon polygon = [] := by
  unfold BleCube.query_geo_polygon
  rw [if_pos h]

/-- C9 witness: a concrete 2-vertex polygon query on a non-empty store. -/
theorem c9_witness :
    ([((0 : ℚ), (0 : ℚ)), (3, 4)].length < 3) ∧
      BleCube.query_geo_polygon (BleCube.build [obsR (-50)]) [(0, 0), (3, 4)] = [] :=
  ⟨by decide, c9_polygon_short _ _ (by decide)⟩

theorem btreeRange_none (lo hi : Int) (m : List (Int × List Nat)) (h : hi < lo) :
    btreeRange lo hi m = none := by
  unfold btreeRange
  rw [if_neg (not_le.mpr h)]

/-- C10: the inclusive range queries are total only under `min ≤ max`: with
    inverted bounds the underlying ordered-map range scan faults (modelled by
    `none`) instead of returning an empty sequence, both for
    `query_rssi_range` and `query_time_range` and when the inverted
    `rssi_range` or `time_range` filter is supplied to `query_multi`. -/
theorem c10_inverted_ranges (c : BleCube) (lo hi : Int) (h : hi < lo) :
    c.query_rssi_range lo hi = none ∧
    c.query_time_range lo hi = none ∧
    (∀ (hdist : ℚ → ℚ → ℚ → ℚ → ℚ) (mac : Option Nat)
        (tr : Option (Int × Int)) (g : Option (ℚ × ℚ × ℚ)),
      c.query_multi hdist mac (some (lo, hi)) tr g = none) ∧
    (∀ (hdist : ℚ → ℚ → ℚ → ℚ → ℚ) (mac : Option Nat)
        (rr : Option (Int × Int)) (g : Option (ℚ × ℚ × ℚ)),
      (∀ a b, rr = some (a, b) → a ≤ b) →
      c.query_multi hdist mac rr (some (lo, hi)) g = none) := by
  refine ⟨?_, ?_, ?_, ?_⟩
  · rw [BleCube.query_rssi_range, btreeRange_none _ _ _ h]
    rfl
  · rw [BleCube.query_time_range, btreeRange_none _ _ _ h]
    rfl
  · intro hdist mac tr g
    simp [BleCube.query_multi, btreeRange_none _ _ _ h]
  · intro hdist mac rr g hrr
    match rr with
    | none => simp [BleCube.query_multi, btreeRange_none _ _ _ h]
    | some (a, b) =>
      have hab : a ≤ b := hrr a b rfl
      have h1 := btreeRange_none lo hi c.time_index h
      have h2 : ∃ R, btreeRange a b c.rssi_index = some R :=
        ⟨_, by rw [btreeRange, if_pos hab]⟩
      obtain ⟨R, hR⟩ := h2
      simp [BleCube.query_multi, h1, hR]

/-- C10 witness: a concrete inverted range on a concrete store. -/
theorem c10_witness :
    BleCube.query_rssi_range (BleCube.build [obsR 0]) 1 0 = none ∧
      BleCube.query_multi (fun _ _ _ _ => 0) (BleCube.build [obsR 0]) none none
        (some (1, 0)) none = none :=
  ⟨(c10_inverted_ranges _ 1 0 (by decide)).1,
    (c10_inverted_ranges _ 1 0 (by decide)).2.2.2 _ none none none
      (fun a b hh => nomatch hh)⟩

theorem aabb_square_mono {lat lon d1 d2 : ℚ} (h01 : 0 ≤ d1) (h12 : d1 ≤ d2)
    (p : ℚ × ℚ)
    (h : aabbContains (lat - d1, lon - d1) (lat + d1, lon + d1) p = true) :
    aabbContains (lat - d2, lon - d2) (lat + d2, lon + d2) p = true := by
  simp only [aabbContains, Bool.and_eq_true, decide_eq_true_eq] at h ⊢
  rw [min_eq_left (by linarith), max_eq_right (by linarith),
    min_eq_left (by linarith), max_eq_right (by linarith)] at h
  obtain ⟨⟨⟨h1, h2⟩, h3⟩, h4⟩ := h
  refine ⟨⟨⟨?_, ?_⟩, ?_⟩, ?_⟩
  · exact le_trans (min_le_left _ _) (by linarith)
  · exact le_trans (by linarith) (le_max_right _ _)
  · exact le_trans (min_le_left _ _) (by linarith)
  · exact le_trans (by linarith) (le_max_right _ _)

/-- C8: geo radius monotonicity.  For a fixed center and any radii
    `r1 ≤ r2`, every record returned by the radius query at `r1` is also
    returned at `r2`; the distance function is any nonnegative function, as
    the haversine distance is. -/
theorem c8_geo_radius_monotone (hdist : ℚ → ℚ → ℚ → ℚ → ℚ)
    (hnn : ∀ a b x y, 0 ≤ hdist a b x y) (c : BleCube) (lat lon r1 r2 : ℚ)
    (hr : r1 ≤ r2) :
    ∀ x ∈ c.query_geo_radius hdist lat lon r1,
      x ∈ c.query_geo_radius hdist lat lon r2 := by
  intro x hx
  unfold BleCube.query_geo_radius BleCube.resolve BleCube.query_geo_radius_ids
    at hx ⊢
  simp only [List.mem_filterMap, List.mem_map, List.mem_filter,
    decide_eq_true_eq] at hx ⊢
  obtain ⟨id, ⟨pt, ⟨⟨hmem, henv⟩, hd1⟩, hrec⟩, hres⟩ := hx
  have h0 : 0 ≤ hdist lat lon pt.coords.1 pt.coords.2 := hnn _ _ _ _
  have hr1 : 0 ≤ r1 := le_trans h0 hd1
  have hdd : r1 / 111000 ≤ r2 / 111000 := by
    rw [div_eq_mul_inv, div_eq_mul_inv]
    exact mul_le_mul_of_nonneg_right hr (by norm_num)
  have hd0 : (0 : ℚ) ≤ r1 / 111000 := div_nonneg hr1 (by norm_num)
  exact ⟨id, ⟨pt, ⟨⟨hmem, aabb_square_mono hd0 hdd _ henv⟩,
    le_trans hd1 hr⟩, hrec⟩, hres⟩

/-- C8 witness: a record at the center is returned at radius 2 because it is
    returned at radius 0. -/
theorem c8_witness :
    obsR 0 ∈ BleCube.query_geo_radius (fun _ _ _ _ => 0)
      (BleCube.build [obsR 0]) 0 0 2 :=
  c8_geo_radius_monotone (fun _ _ _ _ => 0) (fun _ _ _ _ => le_refl 0)
    (BleCube.build [obsR 0]) 0 0 0 2 (by norm_num) (obsR 0) (by
      unfold BleCube.query_geo_radius BleCube.query_geo_radius_ids
        BleCube.resolve
      norm_num [BleCube.build, BleCube.insert, BleCube.new, aabbContains, obsR])

/- ===== Facts about the canonical identifier sets ===== -/

theorem mem_idsOfKey {κ : Type} [DecidableEq κ] {f : BleObservation → κ}
    {l : List BleObservation} {k : κ} {i : Nat} :
    i ∈ idsOfKey f l k ↔ ∃ obs, l[i]? = some obs ∧ f obs = k := by
  unfold idsOfKey
  rw [List.mem_filter, List.mem_range, decide_eq_true_eq, Option.map_eq_some']
  constructor
  · rintro ⟨-, obs, h1, h2⟩
    exact ⟨obs, h1, h2⟩
  · rintro ⟨obs, h1, h2⟩
    refine ⟨?_, obs, h1, h2⟩
    rcases List.getElem?_eq_some_iff.1 h1 with ⟨hlt, -⟩
    exact hlt

theorem idsOfKey_lt_length {κ : Type} [DecidableEq κ]
    {f : BleObservation → κ} {l : List BleObservation} {k : κ} {i : Nat}
    (h : i ∈ idsOfKey f l k) : i < l.length := by
  obtain ⟨obs, h1, -⟩ := mem_idsOfKey.1 h
  rcases List.getElem?_eq_some_iff.1 h1 with ⟨hlt, -⟩
  exact hlt

theorem idsOfKey_nodup {κ : Type} [DecidableEq κ] (f : BleObservation → κ)
    (l : List BleObservation) (k : κ) : (idsOfKey f l k).Nodup :=
  (List.nodup_range _).filter _

theorem idsOfKey_eq_nil_iff {κ : Type} [DecidableEq κ]
    {f : BleObservation → κ} {l : List BleObservation} {k : κ} :
    idsOfKey f l k = [] ↔ k ∉ l.map f := by
  constructor
  · intro h hk
    obtain ⟨obs, hobs, hfk⟩ := List.mem_map.1 hk
    obtain ⟨i, hi⟩ := List.mem_iff_getElem?.1 hobs
    have hmem : i ∈ idsOfKey f l k := mem_idsOfKey.2 ⟨obs, hi, hfk⟩
    rw [h] at hmem
    exact absurd hmem (List.not_mem_nil _)
  · intro hk
    rw [List.eq_nil_iff_forall_not_mem]
    intro i hi
    obtain ⟨obs, h1, h2⟩ := mem_idsOfKey.1 hi
    exact hk (List.mem_map.2 ⟨obs, List.getElem?_mem h1, h2⟩)

theorem idsOfKey_append {κ : Type} [DecidableEq κ] (f : BleObservation → κ)
    (l : List BleObservation) (obs : BleObservation) (k : κ) :
    idsOfKey f (l ++ [obs]) k =
      idsOfKey f l k ++ if f obs = k then [l.length] else [] := by
  unfold idsOfKey
  have hlen : (l ++ [obs]).length = l.length + 1 := by simp
  rw [hlen, List.range_succ, List.filter_append]
  congr 1
  · apply List.filter_congr
    intro i hi
    rw [List.mem_range] at hi
    rw [List.getElem?_append_left hi]
  · by_cases h : f obs = k
    · simp [List.getElem?_concat_length, h]
    · simp [List.getElem?_concat_length, h]

theorem filterMap_getElem?_of_lt {α : Type} (t s : List α) (ids : List Nat)
    (h : ∀ i ∈ ids, i < t.length) :
    ids.filterMap (fun i => (t ++ s)[i]?) = ids.filterMap (fun i => t[i]?) := by
  induction ids with
  | nil => rfl
  | cons a as ih =>
    rw [List.filterMap_cons, List.filterMap_cons,
      List.getElem?_append_left (h a (List.mem_cons_self a as)),
      ih (fun i hi => h i (List.mem_cons_of_mem a hi))]

theorem idsOfKey_filterMap {κ : Type} [DecidableEq κ] (f : BleObservation → κ)
    (l : List BleObservation) (k : κ) :
    (idsOfKey f l k).filterMap (fun i => l[i]?) =
      l.filter (fun o => decide (f o = k)) := by
  induction l using List.reverseRecOn with
  | nil => rfl
  | append_singleton t obs ih =>
    rw [idsOfKey_append, List.filterMap_append, List.filter_append]
    congr 1
    · rw [filterMap_getElem?_of_lt t [obs] _ (fun i hi => idsOfKey_lt_length hi)]
      exact ih
    · by_cases h : f obs = k
      · simp [h, List.getElem?_concat_length]
      · simp [h]

/- ===== Facts about the map models ===== -/

theorem mapGet_eq_none_iff {κ : Type} [DecidableEq κ] {k : κ}
    {idx : List (κ × List Nat)} :
    mapGet k idx = none ↔ k ∉ idx.map (fun p => p.1) := by
  unfold mapGet
  rw [Option.map_eq_none', List.find?_eq_none]
  constructor
  · intro h hk
    obtain ⟨p, hp, hpk⟩ := List.mem_map.1 hk
    exact h p hp (by simp [hpk])
  · intro h p hp hbeq
    exact h (List.mem_map.2 ⟨p, hp, by simpa using hbeq⟩)

theorem mapGet_cons {κ : Type} [DecidableEq κ] (k : κ) (q : κ × List Nat)
    (rest : List (κ × List Nat)) :
    mapGet k (q :: rest) = if q.1 = k then some q.2 else mapGet k rest := by
  unfold mapGet
  by_cases h : q.1 = k
  · rw [List.find?_cons_of_pos _ (by simp [h]), if_pos h]
    rfl
  · rw [List.find?_cons_of_neg _ (by simp [h]), if_neg h]

theorem mapGet_nil {κ : Type} [DecidableEq κ] (k : κ) :
    mapGet k ([] : List (κ × List Nat)) = none := rfl

theorem mapGet_of_mem {κ : Type} [DecidableEq κ] {idx : List (κ × List Nat)}
    (hnd : (idx.map (fun p => p.1)).Nodup) {p : κ × List Nat} (hp : p ∈ idx) :
    mapGet p.1 idx = some p.2 := by
  induction idx with
  | nil => cases hp
  | cons q rest ih =>
    rw [List.map_cons, List.nodup_cons] at hnd
    rw [mapGet_cons]
    rcases List.mem_cons.1 hp with h | h
    · subst h
      rw [if_pos rfl]
    · have hq : q.1 ≠ p.1 := by
        intro he
        apply hnd.1
        rw [he]
        exact List.mem_map.2 ⟨p, h, rfl⟩
      rw [if_neg hq]
      exact ih hnd.2 h

theorem hmapPush_cons_eq {κ : Type} [DecidableEq κ] (k0 : κ) (id : Nat)
    (kq : κ) (b : List Nat) (rest : List (κ × List Nat)) (h : kq = k0) :
    hmapPush k0 id ((kq, b) :: rest) = (kq, b ++ [id]) :: rest := by
  simp [hmapPush, h]

theorem hmapPush_cons_ne {κ : Type} [DecidableEq κ] (k0 : κ) (id : Nat)
    (kq : κ) (b : List Nat) (rest : List (κ × List Nat)) (h : ¬(kq = k0)) :
    hmapPush k0 id ((kq, b) :: rest) = (kq, b) :: hmapPush k0 id rest := by
  simp [hmapPush, h]

theorem mapGet_hmapPush {κ : Type} [DecidableEq κ] (k0 k : κ) (id : Nat)
    (idx : List (κ × List Nat)) :
    mapGet k (hmapPush k0 id idx) =
      if k = k0 then some ((mapGet k0 idx).getD [] ++ [id])
      else mapGet k idx := by
  induction idx with
  | nil =>
    by_cases h : k = k0
    · subst h
      rw [if_pos rfl]
      rw [show hmapPush k id [] = [(k, [id])] from rfl, mapGet_cons, if_pos rfl]
      rfl
    · rw [if_neg h, show hmapPush k0 id [] = [(k0, [id])] from rfl, mapGet_cons,
        if_neg (fun he => h he.symm)]
  | cons q rest ih =>
    obtain ⟨kq, b⟩ := q
    by_cases h1 : kq = k0
    · rw [hmapPush_cons_eq _ _ _ _ _ h1]
      by_cases h2 : k = k0
      · have hqk : kq = k := h1.trans h2.symm
        rw [if_pos h2, mapGet_cons, if_pos hqk, mapGet_cons, if_pos h1]
        rfl
      · have hqk : ¬(kq = k) := fun he => h2 (he.symm.trans h1)
        rw [if_neg h2, mapGet_cons, if_neg hqk, mapGet_cons, if_neg hqk]
    · rw [hmapPush_cons_ne _ _ _ _ _ h1]
      by_cases h2 : kq = k
      · have hk0 : ¬(k = k0) := fun he => h1 (h2.trans he)
        rw [if_neg hk0, mapGet_cons, if_pos h2, mapGet_cons, if_pos h2]
      · rw [mapGet_cons, if_neg h2, ih]
        by_cases hk : k = k0
        · rw [if_pos hk, if_pos hk, mapGet_cons, if_neg h1]
        · rw [if_neg hk, if_neg hk, mapGet_cons, if_neg h2]

theorem keys_hmapPush {κ : Type} [DecidableEq κ] (k0 : κ) (id : Nat)
    (idx : List (κ × List Nat)) :
    (hmapPush k0 id idx).map (fun p => p.1) =
      if k0 ∈ idx.map (fun p => p.1) then idx.map (fun p => p.1)
      else idx.map (fun p => p.1) ++ [k0] := by
  induction idx with
  | nil => simp [hmapPush]
  | cons q rest ih =>
    obtain ⟨kq, b⟩ := q
    by_cases h : kq = k0
    · subst h
      simp [hmapPush]
    · by_cases h2 : k0 ∈ rest.map (fun p => p.1)
      · simp [hmapPush, h, ih, h2, Ne.symm h]
      · simp [hmapPush, h, ih, h2, Ne.symm h]

theorem btreePush_cons_lt (k0 : Int) (id : Nat) (kq : Int) (b : List Nat)
    (rest : List (Int × List Nat)) (h : k0 < kq) :
    btreePush k0 id ((kq, b) :: rest) = (k0, [id]) :: (kq, b) :: rest := by
  simp [btreePush, h]

theorem btreePush_cons_eq (k0 : Int) (id : Nat) (kq : Int) (b : List Nat)
    (rest : List (Int × List Nat)) (h : kq = k0) :
    btreePush k0 id ((kq, b) :: rest) = (kq, b ++ [id]) :: rest := by
  simp [btreePush, h]

theorem btreePush_cons_gt (k0 : Int) (id : Nat) (kq : Int) (b : List Nat)
    (rest : List (Int × List Nat)) (h : kq < k0) :
    btreePush k0 id ((kq, b) :: rest) = (kq, b) :: btreePush k0 id rest := by
  have h1 : ¬(k0 < kq) := not_lt.2 (le_of_lt h)
  have h2 : ¬(kq = k0) := ne_of_lt h
  simp [btreePush, h1, h2]

theorem keys_btreePush_mem (k0 kk : Int) (id : Nat)
    (idx : List (Int × List Nat)) :
    kk ∈ (btreePush k0 id idx).map (fun p => p.1) ↔
      kk = k0 ∨ kk ∈ idx.map (fun p => p.1) := by
  induction idx with
  | nil => simp [btreePush]
  | cons q rest ih =>
    obtain ⟨kq, b⟩ := q
    rcases lt_trichotomy k0 kq with h | h | h
    · rw [btreePush_cons_lt _ _ _ _ _ h]
      simp [List.mem_cons]
    · rw [btreePush_cons_eq _ _ _ _ _ h.symm]
      simp [List.mem_cons, h]
    · rw [btreePush_cons_gt _ _ _ _ _ h]
      simp [List.mem_cons, ih]
      tauto

theorem sorted_btreePush (k0 : Int) (id : Nat) (idx : List (Int × List Nat))
    (hs : List.Sorted (· < ·) (idx.map (fun p => p.1))) :
    List.Sorted (· < ·) ((btreePush k0 id idx).map (fun p => p.1)) := by
  induction idx with
  | nil => simp [btreePush]
  | cons q rest ih =>
    obtain ⟨kq, b⟩ := q
    rw [List.map_cons, List.sorted_cons] at hs
    rcases lt_trichotomy k0 kq with h | h | h
    · rw [btreePush_cons_lt _ _ _ _ _ h, List.map_cons, List.map_cons,
        List.sorted_cons, List.sorted_cons]
      refine ⟨?_, hs.1, hs.2⟩
      intro x hx
      rcases List.mem_cons.1 hx with hx | hx
      · rw [hx]
        exact h
      · exact lt_trans h (hs.1 x hx)
    · rw [btreePush_cons_eq _ _ _ _ _ h.symm, List.map_cons, List.sorted_cons]
      exact ⟨hs.1, hs.2⟩
    · rw [btreePush_cons_gt _ _ _ _ _ h, List.map_cons, List.sorted_cons]
      refine ⟨?_, ih hs.2⟩
      intro x hx
      rcases (keys_btreePush_mem k0 x id rest).1 hx with hx | hx
      · rw [hx]
        exact h
      · exact hs.1 x hx

theorem mapGet_btreePush (k0 k : Int) (id : Nat) (idx : List (Int × List Nat))
    (hs : List.Sorted (· < ·) (idx.map (fun p => p.1))) :
    mapGet k (btreePush k0 id idx) =
      if k = k0 then some ((mapGet k0 idx).getD [] ++ [id])
      else mapGet k idx := by
  induction idx with
  | nil =>
    by_cases h : k = k0
    · subst h
      rw [if_pos rfl]
      rw [show btreePush k id [] = [(k, [id])] from rfl, mapGet_cons, if_pos rfl]
      rfl
    · rw [if_neg h, show btreePush k0 id [] = [(k0, [id])] from rfl, mapGet_cons,
        if_neg (fun he => h he.symm)]
  | cons q rest ih =>
    obtain ⟨kq, b⟩ := q
    rw [List.map_cons, List.sorted_cons] at hs
    rcases lt_trichotomy k0 kq with h1 | h1 | h1
    · rw [btreePush_cons_lt _ _ _ _ _ h1]
      by_cases h2 : k = k0
      · have hget : mapGet k0 ((kq, b) :: rest) = none := by
          rw [mapGet_eq_none_iff, List.map_cons]
          intro hmem
          rcases List.mem_cons.1 hmem with hx | hx
          · exact absurd hx (ne_of_lt h1)
          · exact absurd (hs.1 k0 hx) (not_lt.2 (le_of_lt h1))
        rw [if_pos h2, mapGet_cons, if_pos h2.symm, hget]
        rfl
      · rw [if_neg h2, mapGet_cons, if_neg (fun he => h2 he.symm)]
    · rw [btreePush_cons_eq _ _ _ _ _ h1.symm]
      by_cases h2 : k = k0
      · have hqk : kq = k := h1.symm.trans h2.symm
        rw [if_pos h2, mapGet_cons, if_pos hqk, mapGet_cons, if_pos h1.symm]
        rfl
      · have hqk : ¬(kq = k) := fun he => h2 (he.symm.trans h1.symm)
        rw [if_neg h2, mapGet_cons, if_neg hqk, mapGet_cons, if_neg hqk]
    · rw [btreePush_cons_gt _ _ _ _ _ h1]
      by_cases h2 : kq = k
      · have hk0 : ¬(k = k0) := by
          intro he
          rw [h2, he] at h1
          exact lt_irrefl _ h1
        rw [if_neg hk0, mapGet_cons, if_pos h2, mapGet_cons, if_pos h2]
      · rw [mapGet_cons, if_neg h2, ih hs.2]
        by_cases hk : k = k0
        · rw [if_pos hk, if_pos hk, mapGet_cons, if_neg (ne_of_lt h1)]
        · rw [if_neg hk, if_neg hk, mapGet_cons, if_neg h2]

/- ===== Exactness of the indices of a built store ===== -/

theorem optList_getD (L : List Nat) : (optList L).getD [] = L := by
  unfold optList
  by_cases h : L = []
  · rw [if_pos h, h]
    rfl
  · rw [if_neg h]
    rfl

theorem optList_map_getD {g : List Nat → List BleObservation} (hg : g [] = [])
    (L : List Nat) : ((optList L).map g).getD [] = g L := by
  unfold optList
  by_cases h : L = []
  · rw [if_pos h, h, ← hg]
    rfl
  · rw [if_neg h]
    rfl

theorem IdxOk_push_hmap {κ : Type} [DecidableEq κ] {f : BleObservation → κ}
    {records : List BleObservation} {idx : List (κ × List Nat)}
    (h : IdxOk f records idx) (obs : BleObservation) :
    IdxOk f (records ++ [obs]) (hmapPush (f obs) records.length idx) := by
  constructor
  · intro k
    rw [mapGet_hmapPush, idsOfKey_append]
    by_cases hk : k = f obs
    · subst hk
      rw [if_pos rfl, if_pos rfl, h.getOk, optList_getD]
      unfold optList
      rw [if_neg (by simp)]
    · rw [if_neg hk, if_neg (fun he => hk he.symm), h.getOk, List.append_nil]
  · rw [keys_hmapPush]
    by_cases hmem : f obs ∈ idx.map (fun p => p.1)
    · rw [if_pos hmem]
      exact h.keysNodup
    · rw [if_neg hmem]
      refine List.Nodup.append h.keysNodup (List.nodup_singleton _) ?_
      intro x hx hx2
      rw [List.mem_singleton] at hx2
      subst hx2
      exact hmem hx

theorem IdxOk_push_btree {f : BleObservation → Int}
    {records : List BleObservation} {idx : List (Int × List Nat)}
    (h : IdxOk f records idx)
    (hs : List.Sorted (· < ·) (idx.map (fun p => p.1))) (obs : BleObservation) :
    IdxOk f (records ++ [obs]) (btreePush (f obs) records.length idx) ∧
      List.Sorted (· < ·)
        ((btreePush (f obs) records.length idx).map (fun p => p.1)) := by
  refine ⟨⟨?_, ?_⟩, sorted_btreePush _ _ _ hs⟩
  · intro k
    rw [mapGet_btreePush _ _ _ _ hs, idsOfKey_append]
    by_cases hk : k = f obs
    · subst hk
      rw [if_pos rfl, if_pos rfl, h.getOk, optList_getD]
      unfold optList
      rw [if_neg (by simp)]
    · rw [if_neg hk, if_neg (fun he => hk he.symm), h.getOk, List.append_nil]
  · exact (sorted_btreePush _ _ _ hs).nodup

theorem geoOf_append (l : List BleObservation) (obs : BleObservation) :
    geoOf (l ++ [obs]) =
      geoOf l ++ [GeoPoint.mk (obs.lat, obs.lon) l.length] := by
  unfold geoOf
  have hlen : (l ++ [obs]).length = l.length + 1 := by simp
  rw [hlen, List.range_succ, List.filterMap_append]
  congr 1
  · apply List.filterMap_congr
    intro i hi
    rw [List.mem_range] at hi
    rw [List.getElem?_append_left hi]
  · simp [List.getElem?_concat_length]

theorem cubeOk_new : CubeOk BleCube.new :=
  ⟨⟨fun k => by simp [BleCube.new, mapGet_nil, idsOfKey, optList],
      by simp [BleCube.new]⟩,
   ⟨fun k => by simp [BleCube.new, mapGet_nil, idsOfKey, optList],
      by simp [BleCube.new]⟩,
   by simp [BleCube.new],
   ⟨fun k => by simp [BleCube.new, mapGet_nil, idsOfKey, optList],
      by simp [BleCube.new]⟩,
   by simp [BleCube.new],
   by simp [BleCube.new, geoOf]⟩

theorem cubeOk_insert {c : BleCube} (h : CubeOk c) (obs : BleObservation) :
    CubeOk (c.insert obs).1 := by
  obtain ⟨hm, hr, hrs, ht, hts, hg⟩ := h
  refine ⟨?_, ?_, ?_, ?_, ?_, ?_⟩
  · exact IdxOk_push_hmap hm obs
  · exact (IdxOk_push_btree hr hrs obs).1
  · exact (IdxOk_push_btree hr hrs obs).2
  · exact (IdxOk_push_btree ht hts obs).1
  · exact (IdxOk_push_btree ht hts obs).2
  · show c.geo_index ++ [⟨(obs.lat, obs.lon), c.records.length⟩] =
      geoOf (c.records ++ [obs])
    rw [geoOf_append, hg]

theorem cubeOk_foldl (l : List BleObservation) :
    ∀ c : BleCube, CubeOk c →
      CubeOk (l.foldl (fun c obs => (c.insert obs).1) c) := by
  induction l with
  | nil => intro c hc; exact hc
  | cons a t ih =>
    intro c hc
    rw [List.foldl_cons]
    exact ih _ (cubeOk_insert hc a)

theorem cubeOk_build (l : List BleObservation) : CubeOk (BleCube.build l) :=
  cubeOk_foldl l BleCube.new cubeOk_new

/-- C6: `query_mac` returns exactly the subset of inserted records whose
    hardware address equals the queried address, in original insertion
    order, and the empty sequence for an address that was never inserted. -/
theorem c6_query_mac (l : List BleObservation) (a : Nat) :
    BleCube.query_mac (BleCube.build l) a =
        l.filter (fun o => decide (o.mac = a)) ∧
      (a ∉ l.map (fun o => o.mac) →
        BleCube.query_mac (BleCube.build l) a = []) := by
  have hget := (cubeOk_build l).macOk.getOk a
  rw [build_records] at hget
  constructor
  · rw [BleCube.query_mac, hget, optList_map_getD rfl]
    unfold BleCube.resolve
    simp only [build_records]
    exact idsOfKey_filterMap _ l a
  · intro ha
    rw [BleCube.query_mac, hget, idsOfKey_eq_nil_iff.2 ha]
    rfl

/-- C6 witness: a never-inserted address yields the empty sequence. -/
theorem c6_witness :
    BleCube.query_mac (BleCube.build [obsR 1]) 9 = [] :=
  (c6_query_mac [obsR 1] 9).2 (by decide)

/-- C7: `get_all_macs` is sorted (lexicographic byte order of the 6-byte
    addresses coincides with numeric order of their values), and contains
    every inserted address exactly once and nothing else. -/
theorem c7_get_all_macs (l : List BleObservation) :
    List.Sorted (· ≤ ·) (BleCube.get_all_macs (BleCube.build l)) ∧
      ∀ a : Nat, (BleCube.get_all_macs (BleCube.build l)).count a =
        if a ∈ l.map (fun o => o.mac) then 1 else 0 := by
  have hok := (cubeOk_build l).macOk
  constructor
  · exact List.sorted_insertionSort _ _
  · intro a
    have hperm := List.perm_insertionSort (· ≤ ·)
      ((BleCube.build l).mac_index.map (fun p => p.1))
    rw [BleCube.get_all_macs, hperm.count_eq]
    have h1 := hok.getOk a
    rw [build_records] at h1
    have hmem : a ∈ (BleCube.build l).mac_index.map (fun p => p.1) ↔
        a ∈ l.map (fun o => o.mac) := by
      constructor
      · intro h
        by_contra h2
        rw [idsOfKey_eq_nil_iff.2 h2] at h1
        exact (mapGet_eq_none_iff.1 (by rw [h1]; rfl)) h
      · intro h
        by_contra h2
        rw [mapGet_eq_none_iff.2 h2] at h1
        have h3 : idsOfKey (fun o => o.mac) l a = [] := by
          by_contra h3
          unfold optList at h1
          rw [if_neg h3] at h1
          exact Option.noConfusion h1
        exact (idsOfKey_eq_nil_iff.1 h3) h
    by_cases hmm : a ∈ l.map (fun o => o.mac)
    · rw [if_pos hmm]
      exact List.count_eq_one_of_mem hok.keysNodup (hmem.2 hmm)
    · rw [if_neg hmm]
      exact List.count_eq_zero_of_not_mem (fun hc => hmm (hmem.1 hc))

/-- C7 witness: counts on a concrete store with a repeated address. -/
theorem c7_witness :
    (BleCube.get_all_macs (BleCube.build [⟨1, 9, 0, 0, 0⟩, ⟨2, 3, 0, 0, 0⟩,
        ⟨3, 9, 0, 0, 0⟩])).count 9 =
      if 9 ∈ [⟨1, 9, 0, 0, 0⟩, ⟨2, 3, 0, 0, 0⟩,
          (⟨3, 9, 0, 0, 0⟩ : BleObservation)].map (fun o => o.mac)
      then 1 else 0 :=
  (c7_get_all_macs [⟨1, 9, 0, 0, 0⟩, ⟨2, 3, 0, 0, 0⟩, ⟨3, 9, 0, 0, 0⟩]).2 9

/- ===== Range queries: grouped-by-key characterization ===== -/

theorem bucket_eq_of_IdxOk {κ : Type} [DecidableEq κ] {f : BleObservation → κ}
    {records : List BleObservation} {idx : List (κ × List Nat)}
    (h : IdxOk f records idx) {p : κ × List Nat} (hp : p ∈ idx) :
    p.2 = idsOfKey f records p.1 := by
  have h2 : optList (idsOfKey f records p.1) = some p.2 := by
    rw [← h.getOk]
    exact mapGet_of_mem h.keysNodup hp
  unfold optList at h2
  by_cases he : idsOfKey f records p.1 = []
  · rw [if_pos he] at h2
    exact Option.noConfusion h2
  · rw [if_neg he] at h2
    exact (Option.some_inj.1 h2).symm

theorem keys_mem_iff_of_IdxOk {κ : Type} [DecidableEq κ]
    {f : BleObservation → κ} {records : List BleObservation}
    {idx : List (κ × List Nat)} (h : IdxOk f records idx) (k : κ) :
    k ∈ idx.map (fun p => p.1) ↔ k ∈ records.map f := by
  have h1 := h.getOk k
  constructor
  · intro hk
    by_contra h2
    rw [idsOfKey_eq_nil_iff.2 h2] at h1
    exact (mapGet_eq_none_iff.1 (by rw [h1]; rfl)) hk
  · intro hk
    by_contra h2
    rw [mapGet_eq_none_iff.2 h2] at h1
    have h3 : idsOfKey f records k = [] := by
      by_contra h3
      unfold optList at h1
      rw [if_neg h3] at h1
      exact Option.noConfusion h1
    exact (idsOfKey_eq_nil_iff.1 h3) hk

theorem flatMap_buckets {κ : Type} [DecidableEq κ] {f : BleObservation → κ}
    {records : List BleObservation} {idx : List (κ × List Nat)}
    (hb : ∀ p ∈ idx, p.2 = idsOfKey f records p.1) :
    idx.flatMap (fun p => p.2) =
      (idx.map (fun p => p.1)).flatMap (idsOfKey f records) := by
  induction idx with
  | nil => rfl
  | cons q rest ih =>
    rw [List.flatMap_cons, List.map_cons, List.flatMap_cons,
      hb q (List.mem_cons_self q rest),
      ih (fun p hp => hb p (List.mem_cons_of_mem _ hp))]

theorem keys_filter_eq_canon {f : BleObservation → Int}
    {records : List BleObservation} {idx : List (Int × List Nat)}
    (hok : IdxOk f records idx)
    (hs : List.Sorted (· < ·) (idx.map (fun p => p.1))) (lo hi : Int) :
    (idx.map (fun p => p.1)).filter
        (fun k => decide (lo ≤ k) && decide (k ≤ hi)) =
      canonKeysIn f records lo hi := by
  have hnd1 : ((idx.map (fun p => p.1)).filter
      (fun k => decide (lo ≤ k) && decide (k ≤ hi))).Nodup :=
    hs.nodup.filter _
  have hnd2 : (canonKeysIn f records lo hi).Nodup := by
    unfold canonKeysIn
    exact (List.perm_insertionSort _ _).nodup_iff.2
      ((List.nodup_dedup _).filter _)
  have hmem : ∀ k, k ∈ (idx.map (fun p => p.1)).filter
      (fun k => decide (lo ≤ k) && decide (k ≤ hi)) ↔
      k ∈ canonKeysIn f records lo hi := by
    intro k
    rw [List.mem_filter, keys_mem_iff_of_IdxOk hok]
    unfold canonKeysIn
    rw [(List.perm_insertionSort _ _).mem_iff, List.mem_filter, List.mem_dedup]
  have hsort1 : List.Sorted (· ≤ ·) ((idx.map (fun p => p.1)).filter
      (fun k => decide (lo ≤ k) && decide (k ≤ hi))) := (hs.filter _).le_of_lt
  exact List.eq_of_perm_of_sorted ((List.perm_ext_iff_of_nodup hnd1 hnd2).2 hmem)
    hsort1 (List.sorted_insertionSort _ _)

theorem btreeRange_eq {f : BleObservation → Int}
    {records : List BleObservation} {idx : List (Int × List Nat)}
    (hok : IdxOk f records idx)
    (hs : List.Sorted (· < ·) (idx.map (fun p => p.1)))
    {lo hi : Int} (hlh : lo ≤ hi) :
    btreeRange lo hi idx =
      some ((canonKeysIn f records lo hi).flatMap (idsOfKey f records)) := by
  unfold btreeRange
  rw [if_pos hlh]
  congr 1
  rw [flatMap_buckets (fun p hp => bucket_eq_of_IdxOk hok
    (List.mem_of_mem_filter hp))]
  rw [← keys_filter_eq_canon hok hs lo hi, List.filter_map]
  rfl

theorem filterMap_flatMap_list {α β γ : Type} (M : List α) (g : α → List β)
    (h : β → Option γ) :
    (M.flatMap g).filterMap h = M.flatMap (fun x => (g x).filterMap h) := by
  induction M with
  | nil => rfl
  | cons a t ih =>
    rw [List.flatMap_cons, List.flatMap_cons, List.filterMap_append, ih]

theorem btreeRange_resolved {f : BleObservation → Int}
    {records : List BleObservation} {idx : List (Int × List Nat)}
    (hok : IdxOk f records idx)
    (hs : List.Sorted (· < ·) (idx.map (fun p => p.1)))
    {lo hi : Int} (hlh : lo ≤ hi) :
    (btreeRange lo hi idx).map
        (fun ids => ids.filterMap (fun i => records[i]?)) =
      some (groupedInRange f records lo hi) := by
  rw [btreeRange_eq hok hs hlh, Option.map_some']
  congr 1
  rw [filterMap_flatMap_list]
  unfold groupedInRange
  have hfun : (fun k => (idsOfKey f records k).filterMap
      (fun i => records[i]?)) =
      (fun k => records.filter (fun o => decide (f o = k))) :=
    funext (fun k => idsOfKey_filterMap f records k)
  rw [hfun]

/-- C5: for `min ≤ max`, `query_rssi_range` returns exactly the records
    whose RSSI lies in the inclusive interval, grouped by ascending RSSI key
    and in insertion order within each key (likewise `query_time_range` over
    timestamps); concretely, with signal strengths {-50, -70, -90},
    `query_rssi_range(-80, -60)` returns exactly the -70 record and
    `query_rssi_gte(-70)` returns exactly the -70 and -50 records. -/
theorem c5_range_grouped :
    (∀ (l : List BleObservation) (lo hi : Int), lo ≤ hi →
      BleCube.query_rssi_range (BleCube.build l) lo hi =
          some (groupedInRange (fun o => o.rssi) l lo hi) ∧
        BleCube.query_time_range (BleCube.build l) lo hi =
          some (groupedInRange (fun o => o.timestamp) l lo hi)) ∧
    BleCube.query_rssi_range
        (BleCube.build [obsR (-50), obsR (-70), obsR (-90)]) (-80) (-60) =
      some [obsR (-70)] ∧
    BleCube.query_rssi_gte
        (BleCube.build [obsR (-50), obsR (-70), obsR (-90)]) (-70) =
      some [obsR (-70), obsR (-50)] := by
  refine ⟨?_, by decide, by decide⟩
  intro l lo hi hlh
  have hok := cubeOk_build l
  constructor
  · have h1 := hok.rssiOk
    rw [build_records] at h1
    rw [BleCube.query_rssi_range]
    unfold BleCube.resolve
    simp only [build_records]
    exact btreeRange_resolved h1 hok.rssiSorted hlh
  · have h1 := hok.timeOk
    rw [build_records] at h1
    rw [BleCube.query_time_range]
    unfold BleCube.resolve
    simp only [build_records]
    exact btreeRange_resolved h1 hok.timeSorted hlh

/-- C5 witness: the general grouped form at the concrete scenario store. -/
theorem c5_witness :
    BleCube.query_rssi_range (BleCube.build [obsR (-50), obsR (-70),
        obsR (-90)]) (-80) (-60) =
      some (groupedInRange (fun o => o.rssi)
        [obsR (-50), obsR (-70), obsR (-90)] (-80) (-60)) :=
  (c5_range_grouped.1 [obsR (-50), obsR (-70), obsR (-90)] (-80) (-60)
    (by decide)).1

/- ===== Exactly-once invariant (C4) ===== -/

theorem count_flatIds_hmapPush {κ : Type} [DecidableEq κ] (k : κ) (id x : Nat)
    (idx : List (κ × List Nat)) :
    (flatIds (hmapPush k id idx)).count x =
      (flatIds idx).count x + (if x = id then 1 else 0) := by
  induction idx with
  | nil =>
    by_cases hx : x = id <;>
      simp [hmapPush, flatIds, hx, List.count_cons, List.count_nil]
  | cons q rest ih =>
    obtain ⟨kq, b⟩ := q
    by_cases h : kq = k
    · rw [hmapPush_cons_eq _ _ _ _ _ h]
      by_cases hx : x = id <;>
        simp [flatIds, List.count_append, List.count_cons, List.count_nil,
          hx] <;> omega
    · rw [hmapPush_cons_ne _ _ _ _ _ h]
      have h2 := ih
      by_cases hx : x = id <;>
        simp [flatIds, List.count_append, List.count_cons, List.count_nil,
          hx] at h2 ⊢ <;> omega

theorem count_flatIds_btreePush (k : Int) (id x : Nat)
    (idx : List (Int × List Nat)) :
    (flatIds (btreePush k id idx)).count x =
      (flatIds idx).count x + (if x = id then 1 else 0) := by
  induction idx with
  | nil =>
    by_cases hx : x = id <;>
      simp [btreePush, flatIds, hx, List.count_cons, List.count_nil]
  | cons q rest ih =>
    obtain ⟨kq, b⟩ := q
    rcases lt_trichotomy k kq with h | h | h
    · rw [btreePush_cons_lt _ _ _ _ _ h]
      by_cases hx : x = id <;>
        simp [flatIds, List.count_append, List.count_cons, List.count_nil,
          hx] <;> omega
    · rw [btreePush_cons_eq _ _ _ _ _ h.symm]
      by_cases hx : x = id <;>
        simp [flatIds, List.count_append, List.count_cons, List.count_nil,
          hx] <;> omega
    · rw [btreePush_cons_gt _ _ _ _ _ h]
      have h2 := ih
      by_cases hx : x = id <;>
        simp [flatIds, List.count_append, List.count_cons, List.count_nil,
          hx] at h2 ⊢ <;> omega

theorem mem_getD_of_push {κ : Type} [DecidableEq κ]
    (idx2 : List (κ × List Nat)) {idx : List (κ × List Nat)} {kq k0 : κ}
    {id n : Nat}
    (heq : mapGet kq idx2 =
      if kq = k0 then some ((mapGet k0 idx).getD [] ++ [n])
      else mapGet kq idx)
    (hmem : id ∈ (mapGet kq idx).getD []) :
    id ∈ (mapGet kq idx2).getD [] := by
  rw [heq]
  by_cases h : kq = k0
  · rw [if_pos h]
    subst h
    rw [Option.getD_some]
    exact List.mem_append_left _ hmem
  · rw [if_neg h]
    exact hmem

theorem mem_getD_push_self {κ : Type} [DecidableEq κ]
    (idx2 : List (κ × List Nat)) {idx : List (κ × List Nat)} {k0 : κ}
    {n : Nat}
    (heq : mapGet k0 idx2 =
      if k0 = k0 then some ((mapGet k0 idx).getD [] ++ [n])
      else mapGet k0 idx) :
    n ∈ (mapGet k0 idx2).getD [] := by
  rw [heq, if_pos rfl, Option.getD_some]
  exact List.mem_append_right _ (List.mem_singleton_self _)

theorem build_concat (l : List BleObservation) (obs : BleObservation) :
    BleCube.build (l ++ [obs]) = ((BleCube.build l).insert obs).1 := by
  unfold BleCube.build
  rw [List.foldl_append]
  rfl

theorem storeInv_new : StoreInv BleCube.new ∧ IdxBounded BleCube.new := by
  constructor
  · intro id obs h
    exact absurd h (by simp [BleCube.new])
  · refine ⟨?_, ?_, ?_, ?_⟩ <;> intro x hx <;>
      simp [BleCube.new, flatIds] at hx

theorem storeInv_insert {c : BleCube} (hok : CubeOk c) (hsi : StoreInv c)
    (hib : IdxBounded c) (obs : BleObservation) :
    StoreInv (c.insert obs).1 ∧ IdxBounded (c.insert obs).1 := by
  obtain ⟨hbm, hbr, hbt, hbg⟩ := hib
  have hL : (c.insert obs).1.records.length = c.records.length + 1 := by
    show (c.records ++ [obs]).length = c.records.length + 1
    simp
  constructor
  · intro id obs' h'
    have h'' : (c.records ++ [obs])[id]? = some obs' := h'
    have hlen : id < c.records.length + 1 := by
      rcases List.getElem?_eq_some_iff.1 h'' with ⟨hlt, -⟩
      simpa using hlt
    by_cases hid : id < c.records.length
    · have hrec : c.records[id]? = some obs' := by
        rw [← List.getElem?_append_left hid]
        exact h''
      obtain ⟨⟨hmc, hmm⟩, ⟨hrc, hrm⟩, ⟨htc, htm⟩, hgl⟩ := hsi id obs' hrec
      refine ⟨⟨?_, ?_⟩, ⟨?_, ?_⟩, ⟨?_, ?_⟩, ?_⟩
      · show (flatIds (hmapPush obs.mac c.records.length
          c.mac_index)).count id = 1
        rw [count_flatIds_hmapPush, hmc, if_neg (Nat.ne_of_lt hid)]
      · exact mem_getD_of_push _ (mapGet_hmapPush obs.mac obs'.mac
          c.records.length c.mac_index) hmm
      · show (flatIds (btreePush obs.rssi c.records.length
          c.rssi_index)).count id = 1
        rw [count_flatIds_btreePush, hrc, if_neg (Nat.ne_of_lt hid)]
      · exact mem_getD_of_push _ (mapGet_btreePush obs.rssi obs'.rssi
          c.records.length c.rssi_index hok.rssiSorted) hrm
      · show (flatIds (btreePush obs.timestamp c.records.length
          c.time_index)).count id = 1
        rw [count_flatIds_btreePush, htc, if_neg (Nat.ne_of_lt hid)]
      · exact mem_getD_of_push _ (mapGet_btreePush obs.timestamp
          obs'.timestamp c.records.length c.time_index hok.timeSorted) htm
      · show ((c.geo_index ++ [(⟨(obs.lat, obs.lon), c.records.length⟩ :
          GeoPoint)]).filter
          (fun pt : GeoPoint => pt.record_id == id)).length = 1
        rw [List.filter_append]
        have hone : (([⟨(obs.lat, obs.lon), c.records.length⟩] :
            List GeoPoint).filter (fun pt => pt.record_id == id)) = [] := by
          simp [Ne.symm (Nat.ne_of_lt hid)]
        rw [hone, List.append_nil]
        exact hgl
    · have hide : id = c.records.length := by omega
      subst hide
      have hobs : obs' = obs := by
        have hcat : (c.records ++ [obs])[c.records.length]? = some obs :=
          List.getElem?_concat_length _ _
        rw [hcat] at h''
        exact (Option.some_inj.1 h'').symm
      subst hobs
      refine ⟨⟨?_, ?_⟩, ⟨?_, ?_⟩, ⟨?_, ?_⟩, ?_⟩
      · show (flatIds (hmapPush obs'.mac c.records.length
          c.mac_index)).count c.records.length = 1
        rw [count_flatIds_hmapPush, if_pos rfl, List.count_eq_zero_of_not_mem
          (fun hm => absurd (hbm _ hm) (lt_irrefl _))]
      · exact mem_getD_push_self _ (mapGet_hmapPush obs'.mac obs'.mac
          c.records.length c.mac_index)
      · show (flatIds (btreePush obs'.rssi c.records.length
          c.rssi_index)).count c.records.length = 1
        rw [count_flatIds_btreePush, if_pos rfl, List.count_eq_zero_of_not_mem
          (fun hm => absurd (hbr _ hm) (lt_irrefl _))]
      · exact mem_getD_push_self _ (mapGet_btreePush obs'.rssi obs'.rssi
          c.records.length c.rssi_index hok.rssiSorted)
      · show (flatIds (btreePush obs'.timestamp c.records.length
          c.time_index)).count c.records.length = 1
        rw [count_flatIds_btreePush, if_pos rfl, List.count_eq_zero_of_not_mem
          (fun hm => absurd (hbt _ hm) (lt_irrefl _))]
      · exact mem_getD_push_self _ (mapGet_btreePush obs'.timestamp
          obs'.timestamp c.records.length c.time_index hok.timeSorted)
      · show ((c.geo_index ++ [(⟨(obs'.lat, obs'.lon),
          c.records.length⟩ : GeoPoint)]).filter
          (fun pt : GeoPoint => pt.record_id == c.records.length)).length = 1
        rw [List.filter_append]
        have h0 : (c.geo_index.filter
            (fun pt => pt.record_id == c.records.length)) = [] := by
          rw [List.filter_eq_nil_iff]
          intro pt hpt hbeq
          rw [beq_iff_eq] at hbeq
          exact absurd (hbg pt hpt) (hbeq ▸ lt_irrefl _)
        rw [h0, List.nil_append]
        simp
  · refine ⟨?_, ?_, ?_, ?_⟩
    · intro x hx
      rw [hL]
      have hc := List.count_pos_iff.2 hx
      rw [show (c.insert obs).1.mac_index =
        hmapPush obs.mac c.records.length c.mac_index from rfl,
        count_flatIds_hmapPush] at hc
      by_cases hxn : x = c.records.length
      · omega
      · rw [if_neg hxn] at hc
        have := hbm x (List.count_pos_iff.1 (by omega))
        omega
    · intro x hx
      rw [hL]
      have hc := List.count_pos_iff.2 hx
      rw [show (c.insert obs).1.rssi_index =
        btreePush obs.rssi c.records.length c.rssi_index from rfl,
        count_flatIds_btreePush] at hc
      by_cases hxn : x = c.records.length
      · omega
      · rw [if_neg hxn] at hc
        have := hbr x (List.count_pos_iff.1 (by omega))
        omega
    · intro x hx
      rw [hL]
      have hc := List.count_pos_iff.2 hx
      rw [show (c.insert obs).1.time_index =
        btreePush obs.timestamp c.records.length c.time_index from rfl,
        count_flatIds_btreePush] at hc
      by_cases hxn : x = c.records.length
      · omega
      · rw [if_neg hxn] at hc
        have := hbt x (List.count_pos_iff.1 (by omega))
        omega
    · intro pt hpt
      rw [hL]
      have hpt2 : pt ∈ c.geo_index ++ [⟨(obs.lat, obs.lon),
        c.records.length⟩] := hpt
      rcases List.mem_append.1 hpt2 with h | h
      · have := hbg pt h
        omega
      · rw [List.mem_singleton] at h
        subst h
        show c.records.length < c.records.length + 1
        omega

/-- C4: in every state reachable from the empty cube by `insert` calls,
    every identifier present in the record store occurs exactly once across
    the buckets of each of the MAC, RSSI and Timestamp indices, occurs in
    the bucket keyed by its own record's field value, and has exactly one
    entry in the spatial index; a further `insert` preserves the invariant
    (together with the bound that index entries point into the store). -/
theorem c4_store_invariant (l : List BleObservation) :
    (StoreInv (BleCube.build l) ∧ IdxBounded (BleCube.build l)) ∧
      ∀ obs : BleObservation,
        StoreInv ((BleCube.build l).insert obs).1 ∧
          IdxBounded ((BleCube.build l).insert obs).1 := by
  have hmain : StoreInv (BleCube.build l) ∧ IdxBounded (BleCube.build l) := by
    induction l using List.reverseRecOn with
    | nil => exact storeInv_new
    | append_singleton t obs ih =>
      rw [build_concat]
      exact storeInv_insert (cubeOk_build t) ih.1 ih.2 obs
  exact ⟨hmain, fun obs =>
    storeInv_insert (cubeOk_build l) hmain.1 hmain.2 obs⟩

/-- C4 witness: the invariant at a concrete two-record store. -/
theorem c4_witness :
    StoreInv (BleCube.build [obsR 1, obsR 2]) ∧
      StoreInv ((BleCube.build [obsR 1]).insert (obsR 2)).1 :=
  ⟨(c4_store_invariant [obsR 1, obsR 2]).1.1,
    ((c4_store_invariant [obsR 1]).2 (obsR 2)).1⟩

/- ===== Multi-dimensional query (C2) ===== -/

theorem mem_canon_flatMap {f : BleObservation → Int} {l : List BleObservation}
    {lo hi : Int} {id : Nat} :
    id ∈ (canonKeysIn f l lo hi).flatMap (idsOfKey f l) ↔
      ∃ obs, l[id]? = some obs ∧ lo ≤ f obs ∧ f obs ≤ hi := by
  rw [List.mem_flatMap]
  constructor
  · rintro ⟨k, hk, hid⟩
    obtain ⟨obs, h1, h2⟩ := mem_idsOfKey.1 hid
    have hk2 : lo ≤ k ∧ k ≤ hi := by
      unfold canonKeysIn at hk
      rw [(List.perm_insertionSort _ _).mem_iff, List.mem_filter] at hk
      have h3 := hk.2
      simp only [Bool.and_eq_true, decide_eq_true_eq] at h3
      exact h3
    exact ⟨obs, h1, h2 ▸ hk2.1, h2 ▸ hk2.2⟩
  · rintro ⟨obs, h1, hlo, hhi⟩
    refine ⟨f obs, ?_, mem_idsOfKey.2 ⟨obs, h1, rfl⟩⟩
    unfold canonKeysIn
    rw [(List.perm_insertionSort _ _).mem_iff, List.mem_filter, List.mem_dedup]
    refine ⟨List.mem_map.2 ⟨obs, List.getElem?_mem h1, rfl⟩, by
      simp only [Bool.and_eq_true, decide_eq_true_eq]
      exact ⟨hlo, hhi⟩⟩

theorem mem_geoOf {l : List BleObservation} {pt : GeoPoint} :
    pt ∈ geoOf l ↔ ∃ i obs, l[i]? = some obs ∧
      pt = GeoPoint.mk (obs.lat, obs.lon) i := by
  unfold geoOf
  rw [List.mem_filterMap]
  constructor
  · rintro ⟨i, hi, hmap⟩
    rw [Option.map_eq_some'] at hmap
    obtain ⟨obs, h1, h2⟩ := hmap
    exact ⟨i, obs, h1, h2.symm⟩
  · rintro ⟨i, obs, h1, h2⟩
    refine ⟨i, ?_, by rw [h1, Option.map_some', h2]⟩
    rw [List.mem_range]
    rcases List.getElem?_eq_some_iff.1 h1 with ⟨hlt, -⟩
    exact hlt

theorem mem_geo_radius_ids_build {hdist : ℚ → ℚ → ℚ → ℚ → ℚ}
    {l : List BleObservation} {lat lon r : ℚ} {id : Nat} :
    id ∈ BleCube.query_geo_radius_ids hdist (BleCube.build l) lat lon r ↔
      ∃ obs, l[id]? = some obs ∧
        geoPass hdist (some (lat, lon, r)) obs = true := by
  have hgeo : (BleCube.build l).geo_index = geoOf l := by
    have h := (cubeOk_build l).geoEq
    rw [build_records] at h
    exact h
  unfold BleCube.query_geo_radius_ids
  rw [hgeo]
  simp only [List.mem_map, List.mem_filter]
  constructor
  · rintro ⟨pt, ⟨⟨hmem, henv⟩, hdst⟩, hrec⟩
    obtain ⟨i, obs, h1, h2⟩ := mem_geoOf.1 hmem
    subst h2
    refine ⟨obs, hrec ▸ h1, ?_⟩
    unfold geoPass
    simp only [Bool.and_eq_true]
    exact ⟨henv, hdst⟩
  · rintro ⟨obs, h1, hpass⟩
    unfold geoPass at hpass
    simp only [Bool.and_eq_true] at hpass
    refine ⟨GeoPoint.mk (obs.lat, obs.lon) id,
      ⟨⟨mem_geoOf.2 ⟨id, obs, h1, rfl⟩, hpass.1⟩, hpass.2⟩, rfl⟩

theorem canon_contains_eq {f : BleObservation → Int}
    {l : List BleObservation} {lo hi : Int} {id : Nat} {obs : BleObservation}
    (hobs : l[id]? = some obs) :
    ((canonKeysIn f l lo hi).flatMap (idsOfKey f l)).contains id =
      (decide (lo ≤ f obs) && decide (f obs ≤ hi)) := by
  rw [Bool.eq_iff_iff]
  constructor
  · intro hc
    have hmem : id ∈ (canonKeysIn f l lo hi).flatMap (idsOfKey f l) := by
      simpa using hc
    obtain ⟨obs2, h1, h2, h3⟩ := mem_canon_flatMap.1 hmem
    rw [hobs] at h1
    obtain rfl := Option.some_inj.1 h1
    simp [h2, h3]
  · intro hb
    simp only [Bool.and_eq_true, decide_eq_true_eq] at hb
    have hmem := mem_canon_flatMap.2 ⟨obs, hobs, hb.1, hb.2⟩
    simpa using hmem

theorem geo_contains_eq {hdist : ℚ → ℚ → ℚ → ℚ → ℚ}
    {l : List BleObservation} {lat lon r : ℚ} {id : Nat}
    {obs : BleObservation} (hobs : l[id]? = some obs) :
    (((BleCube.query_geo_radius_ids hdist (BleCube.build l) lat lon
        r).filter (fun id2 => decide (id2 < l.length))).contains id) =
      geoPass hdist (some (lat, lon, r)) obs := by
  rw [Bool.eq_iff_iff]
  constructor
  · intro hc
    have hmem : id ∈ (BleCube.query_geo_radius_ids hdist (BleCube.build l)
        lat lon r).filter (fun id2 => decide (id2 < l.length)) := by
      simpa using hc
    rw [List.mem_filter] at hmem
    obtain ⟨obs2, h1, hp⟩ := mem_geo_radius_ids_build.1 hmem.1
    rw [hobs] at h1
    obtain rfl := Option.some_inj.1 h1
    rw [hp]
  · intro hp
    have hid : id < l.length := by
      rcases List.getElem?_eq_some_iff.1 hobs with ⟨hlt, -⟩
      exact hlt
    have hmem := mem_geo_radius_ids_build.2 ⟨obs, hobs, hp⟩
    simp [List.mem_filter, hmem, hid]

theorem filterMap_getElem?_range {α : Type} (l : List α) :
    (List.range l.length).filterMap (fun i => l[i]?) = l := by
  induction l using List.reverseRecOn with
  | nil => rfl
  | append_singleton t a ih =>
    have hlen : (t ++ [a]).length = t.length + 1 := by simp
    rw [hlen, List.range_succ, List.filterMap_append,
      filterMap_getElem?_of_lt t [a] _ (fun i hi => List.mem_range.1 hi), ih]
    simp [List.getElem?_concat_length]

theorem query_multi_eq_multiTail (hdist : ℚ → ℚ → ℚ → ℚ → ℚ) (c : BleCube)
    (mac : Option Nat) (rssiR timeR : Option (Int × Int))
    (geoR : Option (ℚ × ℚ × ℚ)) :
    BleCube.query_multi hdist c mac rssiR timeR geoR =
      BleCube.multiTail hdist c (BleCube.baseOf c mac) rssiR timeR geoR := by
  cases mac <;> rfl

theorem baseOf_build (l : List BleObservation) (mac : Option Nat) :
    BleCube.baseOf (BleCube.build l) mac = baseIds l mac := by
  cases mac with
  | none =>
    show List.range (BleCube.build l).records.length = _
    rw [build_records]
    rfl
  | some a =>
    have hg := (cubeOk_build l).macOk.getOk a
    rw [build_records] at hg
    show (mapGet a (BleCube.build l).mac_index).getD [] = _
    rw [hg, optList_getD]
    rfl

theorem baseIds_lt_length (l : List BleObservation) (mac : Option Nat) :
    ∀ id ∈ baseIds l mac, id < l.length := by
  intro id hid
  cases mac with
  | none => exact List.mem_range.1 hid
  | some a => exact idsOfKey_lt_length hid

theorem multiTail_eq (hdist : ℚ → ℚ → ℚ → ℚ → ℚ) (l : List BleObservation)
    (B : List Nat) (hB : ∀ id ∈ B, id < l.length)
    (rssiR timeR : Option (Int × Int)) (geoR : Option (ℚ × ℚ × ℚ))
    (hr : ∀ a b, rssiR = some (a, b) → a ≤ b)
    (ht : ∀ a b, timeR = some (a, b) → a ≤ b) :
    BleCube.multiTail hdist (BleCube.build l) B rssiR timeR geoR =
      some ((B.filter (passes hdist l rssiR timeR geoR)).filterMap
        (fun id => l[id]?)) := by
  have hok := cubeOk_build l
  have h1 := hok.rssiOk
  rw [build_records] at h1
  have h2 := hok.timeOk
  rw [build_records] at h2
  rcases rssiR with _ | ⟨lo, hi⟩ <;> rcases timeR with _ | ⟨slo, shi⟩ <;>
    rcases geoR with _ | ⟨glat, glon, gr⟩
  · simp only [BleCube.multiTail, Option.bind_eq_bind, Option.some_bind,
      Option.pure_def]
    congr 1
    unfold BleCube.resolve
    simp only [build_records]
    congr 1
    symm
    rw [List.filter_eq_self]
    intro id hid
    obtain ⟨obs, hobs⟩ : ∃ obs, l[id]? = some obs :=
      ⟨_, List.getElem?_eq_getElem (hB id hid)⟩
    simp [passes, hobs, inRangeOpt, geoPass]
  · simp only [BleCube.multiTail, Option.bind_eq_bind, Option.some_bind,
      Option.pure_def]
    congr 1
    unfold BleCube.resolve
    simp only [build_records]
    congr 1
    apply List.filter_congr
    intro id hid
    obtain ⟨obs, hobs⟩ : ∃ obs, l[id]? = some obs :=
      ⟨_, List.getElem?_eq_getElem (hB id hid)⟩
    rw [geo_contains_eq hobs, Bool.eq_iff_iff]
    simp only [passes, hobs, inRangeOpt, Bool.and_eq_true, true_and]
  · have hT := btreeRange_eq h2 hok.timeSorted (ht slo shi rfl)
    simp only [BleCube.multiTail, hT, Option.bind_eq_bind, Option.some_bind,
      Option.pure_def]
    congr 1
    unfold BleCube.resolve
    simp only [build_records]
    congr 1
    apply List.filter_congr
    intro id hid
    obtain ⟨obs, hobs⟩ : ∃ obs, l[id]? = some obs :=
      ⟨_, List.getElem?_eq_getElem (hB id hid)⟩
    rw [canon_contains_eq hobs, Bool.eq_iff_iff]
    simp only [passes, hobs, inRangeOpt, geoPass, Bool.and_eq_true,
      decide_eq_true_eq, true_and, and_true]
  · have hT := btreeRange_eq h2 hok.timeSorted (ht slo shi rfl)
    simp only [BleCube.multiTail, hT, Option.bind_eq_bind, Option.some_bind,
      Option.pure_def]
    congr 1
    unfold BleCube.resolve
    simp only [build_records]
    congr 1
    rw [List.filter_filter]
    apply List.filter_congr
    intro id hid
    obtain ⟨obs, hobs⟩ : ∃ obs, l[id]? = some obs :=
      ⟨_, List.getElem?_eq_getElem (hB id hid)⟩
    rw [canon_contains_eq hobs, geo_contains_eq hobs, Bool.eq_iff_iff]
    simp only [passes, hobs, inRangeOpt, Bool.and_eq_true,
      decide_eq_true_eq, true_and, and_true]
    tauto
  · have hR := btreeRange_eq h1 hok.rssiSorted (hr lo hi rfl)
    simp only [BleCube.multiTail, hR, Option.bind_eq_bind, Option.some_bind,
      Option.pure_def]
    congr 1
    unfold BleCube.resolve
    simp only [build_records]
    congr 1
    apply List.filter_congr
    intro id hid
    obtain ⟨obs, hobs⟩ : ∃ obs, l[id]? = some obs :=
      ⟨_, List.getElem?_eq_getElem (hB id hid)⟩
    rw [canon_contains_eq hobs, Bool.eq_iff_iff]
    simp only [passes, hobs, inRangeOpt, geoPass, Bool.and_eq_true,
      decide_eq_true_eq, true_and, and_true]
  · have hR := btreeRange_eq h1 hok.rssiSorted (hr lo hi rfl)
    simp only [BleCube.multiTail, hR, Option.bind_eq_bind, Option.some_bind,
      Option.pure_def]
    congr 1
    unfold BleCube.resolve
    simp only [build_records]
    congr 1
    rw [List.filter_filter]
    apply List.filter_congr
    intro id hid
    obtain ⟨obs, hobs⟩ : ∃ obs, l[id]? = some obs :=
      ⟨_, List.getElem?_eq_getElem (hB id hid)⟩
    rw [canon_contains_eq hobs, geo_contains_eq hobs, Bool.eq_iff_iff]
    simp only [passes, hobs, inRangeOpt, Bool.and_eq_true,
      decide_eq_true_eq, true_and, and_true]
    tauto
  · have hR := btreeRange_eq h1 hok.rssiSorted (hr lo hi rfl)
    have hT := btreeRange_eq h2 hok.timeSorted (ht slo shi rfl)
    simp only [BleCube.multiTail, hR, hT, Option.bind_eq_bind,
      Option.some_bind, Option.pure_def]
    congr 1
    unfold BleCube.resolve
    simp only [build_records]
    congr 1
    rw [List.filter_filter]
    apply List.filter_congr
    intro id hid
    obtain ⟨obs, hobs⟩ : ∃ obs, l[id]? = some obs :=
      ⟨_, List.getElem?_eq_getElem (hB id hid)⟩
    rw [canon_contains_eq hobs, canon_contains_eq hobs, Bool.eq_iff_iff]
    simp only [passes, hobs, inRangeOpt, geoPass, Bool.and_eq_true,
      decide_eq_true_eq, true_and, and_true]
    tauto
  · have hR := btreeRange_eq h1 hok.rssiSorted (hr lo hi rfl)
    have hT := btreeRange_eq h2 hok.timeSorted (ht slo shi rfl)
    simp only [BleCube.multiTail, hR, hT, Option.bind_eq_bind,
      Option.some_bind, Option.pure_def]
    congr 1
    unfold BleCube.resolve
    simp only [build_records]
    congr 1
    rw [List.filter_filter, List.filter_filter]
    apply List.filter_congr
    intro id hid
    obtain ⟨obs, hobs⟩ : ∃ obs, l[id]? = some obs :=
      ⟨_, List.getElem?_eq_getElem (hB id hid)⟩
    rw [canon_contains_eq hobs, canon_contains_eq hobs,
      geo_contains_eq hobs, Bool.eq_iff_iff]
    simp only [passes, hobs, inRangeOpt, Bool.and_eq_true,
      decide_eq_true_eq, true_and, and_true]
    tauto

/-- C2: `query_multi` returns exactly the records whose identifier lies in
    the starting candidate set (the MAC bucket when a MAC filter is given,
    otherwise the full identifier range) and also in each given dimension's
    independently computed match set (RSSI inclusive range, Timestamp
    inclusive range, Spatial radius), preserving the base candidate set's
    order; with all filters omitted it returns every inserted record in
    identifier order.  Ranges are required to be well-formed, as inverted
    ones fault (see the inverted-range property). -/
theorem c2_query_multi (hdist : ℚ → ℚ → ℚ → ℚ → ℚ) (l : List BleObservation)
    (mac : Option Nat) (rssiR timeR : Option (Int × Int))
    (geoR : Option (ℚ × ℚ × ℚ))
    (hr : ∀ a b, rssiR = some (a, b) → a ≤ b)
    (ht : ∀ a b, timeR = some (a, b) → a ≤ b) :
    BleCube.query_multi hdist (BleCube.build l) mac rssiR timeR geoR =
        some (((baseIds l mac).filter
          (passes hdist l rssiR timeR geoR)).filterMap (fun id => l[id]?)) ∧
      BleCube.query_multi hdist (BleCube.build l) none none none none =
        some l := by
  constructor
  · rw [query_multi_eq_multiTail, baseOf_build]
    exact multiTail_eq hdist l _ (baseIds_lt_length l mac) rssiR timeR geoR
      hr ht
  · rw [query_multi_eq_multiTail, baseOf_build,
      multiTail_eq hdist l _ (baseIds_lt_length l none) none none none
        (fun a b h => nomatch h) (fun a b h => nomatch h)]
    congr 1
    have hfilter : (baseIds l none).filter
        (passes hdist l none none none) = baseIds l none := by
      rw [List.filter_eq_self]
      intro id hid
      obtain ⟨obs, hobs⟩ : ∃ obs, l[id]? = some obs :=
        ⟨_, List.getElem?_eq_getElem (baseIds_lt_length l none id hid)⟩
      simp [passes, hobs, inRangeOpt, geoPass]
    rw [hfilter]
    show (List.range l.length).filterMap (fun id => l[id]?) = l
    exact filterMap_getElem?_range l

/-- C2 witness: all filters omitted on a concrete two-record store. -/
theorem c2_witness :
    BleCube.query_multi (fun _ _ _ _ => 0) (BleCube.build [obsR 1, obsR 2])
        none none none none = some [obsR 1, obsR 2] :=
  (c2_query_multi (fun _ _ _ _ => 0) [obsR 1, obsR 2] none none none none
    (fun a b h => nomatch h) (fun a b h => nomatch h)).2
